import Mathlib

/-!
# Verification of the webpack-bundle-analyzer composition engine

Shallow embedding of the stats-to-tree composition engine of
`webpack-bundle-analyzer` (files `src/analyzer.js`, `src/viewer.js`,
`src/tree/Folder.js`), together with proofs settling the frozen claims
about it.

Conventions of the embedding:
* JavaScript strings are modelled by Lean `String`; a string's `length`
  stands for the byte length of the text (the sources this program reads
  are byte strings; the embedding does not model UTF-16 encoding
  artefacts, and filenames are assumed not to contain newline characters,
  so `/\?.*$/` removes everything from the first `?` on).
* JavaScript numbers that are used as sizes or ids are modelled by `Nat`.
* Code that can throw is modelled with `Except String`; the error string
  stands for the thrown `TypeError`.
* Mutable per-node caches (`this._gzipSize`) are modelled by explicit
  state passing: a read returns the value together with the updated node.
* Classes `BaseFolder`, `Module`, `ConcatenatedModule` and the helpers
  `getModulePathParts` / `createAssetsFilter` are part of the repository
  but are not under `src/`; the definitions standing in for them carry a
  doc comment starting with `Modelled from the spec:`.
-/

/-- One source module as recorded by the build tool (`StatModule` of the
spec).  `subModules` models the optional `modules` field (present, possibly
empty, only for concatenated modules; in JS an empty array is still truthy).
`parsedSrc` is the attributed real source slice.  `pathParts` carries the
result of the external path-splitting collaborator `getModulePathParts`
(`src/tree/utils.js`, not under `src/`): `none` models a record whose
path-like identifier yields no usable split. -/
inductive StatModule where
  | mk (id : Nat) (size : Nat) (chunks : List Nat)
      (subModules : Option (List StatModule))
      (parsedSrc : Option String)
      (pathParts : Option (List String))
deriving Repr

def StatModule.id : StatModule → Nat
  | .mk i _ _ _ _ _ => i

def StatModule.size : StatModule → Nat
  | .mk _ s _ _ _ _ => s

def StatModule.chunks : StatModule → List Nat
  | .mk _ _ c _ _ _ => c

def StatModule.subModules : StatModule → Option (List StatModule)
  | .mk _ _ _ m _ _ => m

def StatModule.parsedSrc : StatModule → Option String
  | .mk _ _ _ _ p _ => p

def StatModule.pathParts : StatModule → Option (List String)
  | .mk _ _ _ _ _ p => p

/-- Modelled from the spec: `getModulePathParts` (`src/tree/utils.js`, not
under `src/`) splits a module record's path-like identifier into segments;
"an external collaborator supplies this split", so the embedding carries
the split result on the record itself. -/
def getModulePathParts (m : StatModule) : Option (List String) :=
  m.pathParts

/-- One build output file (`Asset` of the spec). -/
structure Asset where
  name : String
  size : Nat
  chunks : List Nat
  isChild : Bool
deriving Repr, DecidableEq

/-- One chunk of a stats object: its `modules` list may be absent. -/
structure Chunk where
  id : Nat
  modules : Option (List StatModule)
deriving Repr

/-- A (possibly nested) webpack build-stats object: top-level `assets`,
`chunks`, `modules`, `assetsByChunkName` (chunk name to flattened list of
asset names) and `children` sub-builds of the same shape. -/
inductive RawStats where
  | mk (assets : List Asset) (chunks : List Chunk) (modules : List StatModule)
      (assetsByChunkName : List (String × List String))
      (children : List RawStats)

def RawStats.assets : RawStats → List Asset
  | .mk a _ _ _ _ => a

def RawStats.chunks : RawStats → List Chunk
  | .mk _ c _ _ _ => c

def RawStats.modules : RawStats → List StatModule
  | .mk _ _ m _ _ => m

def RawStats.assetsByChunkName : RawStats → List (String × List String)
  | .mk _ _ _ n _ => n

def RawStats.children : RawStats → List RawStats
  | .mk _ _ _ _ c => c

def RawStats.setAssets : RawStats → List Asset → RawStats
  | .mk _ c m n ch, a => .mk a c m n ch

/-! ## The composition tree (`src/tree/Folder.js` and its base classes)

`Folder.js` is under `src/`; its base classes `BaseFolder`, `Module` and
`ConcatenatedModule` (`src/tree/`) are part of the repository but not under
`src/`, so their behaviour is modelled from the spec where noted. -/

/-- A composition-tree node.  `module` embeds class `Module` (a leaf),
`cmodule` embeds `ConcatenatedModule` (a leaf that owns a nested sub-tree;
the source chooses it whenever `moduleData.modules` is present, even when
empty), `folder` embeds `Folder`.  `gzCache` models the `_gzipSize` memo
field (absent until the first read of `gzipSize`). -/
inductive CNode where
  | module (name : String) (size : Nat) (src : Option String) (gzCache : Option Nat)
  | cmodule (name : String) (size : Nat) (src : Option String)
      (children : List CNode) (gzCache : Option Nat)
  | folder (name : String) (children : List CNode) (gzCache : Option Nat)
deriving Repr

def CNode.cname : CNode → String
  | .module n _ _ _ => n
  | .cmodule n _ _ _ _ => n
  | .folder n _ _ => n

/-- `childNode instanceof Folder` of the source: only `Folder` nodes count
(a `ConcatenatedModule` is not an instance of `Folder`). -/
def CNode.isFolder : CNode → Bool
  | .folder _ _ _ => true
  | _ => false

def CNode.childrenOf : CNode → List CNode
  | .module _ _ _ _ => []
  | .cmodule _ _ _ cs _ => cs
  | .folder _ cs _ => cs

def CNode.setChildren : CNode → List CNode → CNode
  | .module n s src gz, _ => .module n s src gz
  | .cmodule n s src _ gz, cs => .cmodule n s src cs gz
  | .folder n _ gz, cs => .folder n cs gz

def CNode.gzCacheOf : CNode → Option Nat
  | .module _ _ _ gz => gz
  | .cmodule _ _ _ _ gz => gz
  | .folder _ _ gz => gz

def setGzCache : CNode → Nat → CNode
  | .module n s src _, v => .module n s src (some v)
  | .cmodule n s src cs _, v => .cmodule n s src cs (some v)
  | .folder n cs _, v => .folder n cs (some v)

/-- The node's own attributed source text: `Module`'s / `ConcatenatedModule`'s
`data.parsedSrc`; a `Folder` has none of its own. -/
def srcOf : CNode → Option String
  | .module _ _ src _ => src
  | .cmodule _ _ src _ _ => src
  | .folder _ _ _ => none

/-- Modelled from the spec: `BaseFolder`'s children mapping is "an
ordered-by-insertion mapping from child name to CompositionNode (names
unique among direct children)"; assigning to an existing name keeps its
position (JavaScript object key semantics), a new name is appended. -/
def setChild : List CNode → String → CNode → List CNode
  | [], _, c => [c]
  | x :: xs, nm, c => if x.cname = nm then c :: xs else x :: setChild xs nm c

/-- `BaseFolder.getChild(name)`: lookup of a direct child by name. -/
def getChild (cs : List CNode) (nm : String) : Option CNode :=
  cs.find? (fun c => c.cname = nm)

mutual
/-- Modelled from the spec: the node-specific source string read by
`Folder.parsedSize` / `Folder.gzipSize` (`this.src`, a `BaseFolder` getter
not under `src/`).  A leaf contributes its attributed source; a folder's
source is the concatenation of its children's sources; for a concatenated
module with no attributed source of its own the spec's `parsedSize` clause
("else sum of children's `parsedSize`") forces the same concatenation. -/
def nodeSrc : CNode → String
  | .module _ _ src _ => src.getD ""
  | .cmodule _ _ (some s) _ _ => s
  | .cmodule _ _ none cs _ => concatSrcs cs
  | .folder _ cs _ => concatSrcs cs
def concatSrcs : List CNode → String
  | [] => ""
  | c :: cs => nodeSrc c ++ concatSrcs cs
end

/-- `Folder.parsedSize` (src/unnamed/part_001 lines 15-17):
`return this.src ? this.src.length : 0` — an empty or absent source is
falsy and yields 0.  The spec models `Module`'s and `ConcatenatedModule`'s
`parsedSize` by the same clause (byte length of `src` if present). -/
def parsedSize (n : CNode) : Nat :=
  if nodeSrc n = "" then 0 else (nodeSrc n).length

mutual
/-- Modelled from the spec: `BaseFolder`'s `size` getter (not under
`src/`): "`statSize` of a folder always equals the sum of its children's
`statSize`"; a leaf (also a concatenated one) reports its declared size. -/
def statSizeOf : CNode → Nat
  | .module _ sz _ _ => sz
  | .cmodule _ sz _ _ _ => sz
  | .folder _ cs _ => statSizeList cs
def statSizeList : List CNode → Nat
  | [] => 0
  | c :: cs => statSizeOf c + statSizeList cs
end

/-- `Folder.gzipSize` (src/unnamed/part_001 lines 19-25) as a state-passing
read.  `compressedSize` is the externally supplied compression function
(`this.opts.compressedSize`); `none` models a tree whose root was built
without options (`new Folder('.')` in `createModulesTree`), in which case
touching `this.opts.compressedSize` throws.  Returns the value, the node
with its `_gzipSize` memo updated, and how many times the compression
function was invoked. -/
def gzipRead (compressedSize : Option (String → Nat)) (n : CNode) :
    Except String (Nat × CNode × Nat) :=
  match n.gzCacheOf with
  | some v => .ok (v, n, 0)
  | none =>
    if nodeSrc n = "" then .ok (0, setGzCache n 0, 0)
    else
      match compressedSize with
      | none => .error "TypeError: Cannot read properties of undefined (reading compressedSize)"
      | some f => .ok (f (nodeSrc n), setGzCache n (f (nodeSrc n)), 1)

/-- The folder-walk step of `Folder.addModule` (src/unnamed/part_001 lines
37-53) followed by the final `addChildModule`: walks/creates folder nodes
for each intermediate segment — an existing child that is not a `Folder`
is replaced by a new empty folder — and stores the leaf at the last
segment. -/
def insertInto (leaf : CNode) : CNode → List String → CNode
  | cur, [] => cur.setChildren (setChild cur.childrenOf leaf.cname leaf)
  | cur, f :: rest =>
    let childStart : CNode :=
      match getChild cur.childrenOf f with
      | some c => if c.isFolder then c else .folder f [] none
      | none => .folder f [] none
    cur.setChildren (setChild cur.childrenOf f (insertInto leaf childStart rest))

mutual
/-- `Folder.addModule` (src/unnamed/part_001 lines 27-58): split the path,
walk the folders, insert a `Module` — or, when `moduleData.modules` is
present, a `ConcatenatedModule` whose own children are (modelled from the
spec, `ConcatenatedModule` is not under `src/`) "recursively inserted using
the same rules relative to its own sub-tree".  A record with no usable
path split, or an empty split, is silently skipped. -/
def insertModule (cur : CNode) : StatModule → CNode
  | .mk _ sz _ subs ps pp =>
    match pp with
    | none => cur
    | some parts =>
      match parts.getLast? with
      | none => cur
      | some fileName =>
        let leaf : CNode :=
          match subs with
          | none => .module fileName sz ps none
          | some subList => insertList (.cmodule fileName sz ps [] none) subList
        insertInto leaf cur parts.dropLast
/-- `_.each(modules, module => root.addModule(module))` — insert a list of
module records in order. -/
def insertList (cur : CNode) : List StatModule → CNode
  | [] => cur
  | m :: rest => insertList (insertModule cur m) rest
end

mutual
/-- Number of nodes of a tree; the termination measure of the folder-merge
pass. -/
def nodeCount : CNode → Nat
  | .module _ _ _ _ => 1
  | .cmodule _ _ _ cs _ => 1 + nodeCountList cs
  | .folder _ cs _ => 1 + nodeCountList cs
def nodeCountList : List CNode → Nat
  | [] => 0
  | c :: cs => nodeCount c + nodeCountList cs
end

theorem nodeCount_pos (n : CNode) : 0 < nodeCount n := by
  cases n <;> simp [nodeCount]

theorem nodeCount_mem_le {c : CNode} {cs : List CNode} (h : c ∈ cs) :
    nodeCount c ≤ nodeCountList cs := by
  induction cs with
  | nil => cases h
  | cons x xs ih =>
    rcases List.mem_cons.mp h with rfl | hx
    · simp [nodeCountList]
    · have := ih hx
      simp only [nodeCountList]
      omega

theorem nodeCountList_childrenOf_lt (n : CNode) :
    nodeCountList n.childrenOf < nodeCount n := by
  cases n <;> simp [nodeCount, nodeCountList, CNode.childrenOf]

/-- Modelled from the spec: the chain-absorbing loop of
`mergeNestedFolders` (`BaseFolder`, not under `src/`): while a (non-root)
folder has exactly one child and that child is itself a folder, absorb it,
"combining `a` → `b` into `a/b`". -/
def absorbChain : CNode → CNode
  | .folder name [c] gz =>
    if c.isFolder then absorbChain (.folder (name ++ "/" ++ c.cname) c.childrenOf gz)
    else .folder name [c] gz
  | n => n
termination_by n => nodeCount n
decreasing_by
  cases c <;> simp_all [CNode.isFolder, nodeCount, nodeCountList, CNode.childrenOf]

theorem absorbChain_nodeCount_le (n : CNode) : nodeCount (absorbChain n) ≤ nodeCount n := by
  cases h : n with
  | folder name cs gz =>
    match cs with
    | [] => simp [absorbChain]
    | [c] =>
      rw [absorbChain]
      by_cases hf : c.isFolder = true
      · simp only [hf, if_true]
        have hrec := absorbChain_nodeCount_le (.folder (name ++ "/" ++ c.cname) c.childrenOf gz)
        have h2 : nodeCountList c.childrenOf < nodeCount c := nodeCountList_childrenOf_lt c
        simp [nodeCount, nodeCountList] at hrec ⊢
        omega
      · simp [hf]
    | c₁ :: c₂ :: rest => simp [absorbChain]
  | module name sz src gz => simp [absorbChain]
  | cmodule name sz src cs gz => simp [absorbChain]
termination_by nodeCount n
decreasing_by
  cases c <;> simp_all [CNode.isFolder, nodeCount, nodeCountList, CNode.childrenOf]

mutual
/-- Modelled from the spec: the recursive part of `mergeNestedFolders`
(`BaseFolder`, not under `src/`): after its chain is absorbed, a node's
children are merged recursively; "a one-shot, post-insertion normalization
pass that collapses nesting chains of single-child folders". -/
def mergeNode (n : CNode) : CNode :=
  (absorbChain n).setChildren (mergeList (absorbChain n).childrenOf)
termination_by 2 * nodeCount n
decreasing_by
  have h1 := absorbChain_nodeCount_le n
  have h2 := nodeCountList_childrenOf_lt (absorbChain n)
  omega
/-- Merge every node of a list of siblings. -/
def mergeList : List CNode → List CNode
  | [] => []
  | c :: cs => mergeNode c :: mergeList cs
termination_by cs => 2 * nodeCountList cs + 1
decreasing_by
  · have h1 : nodeCount c ≤ nodeCountList (c :: cs) := nodeCount_mem_le (by simp)
    omega
  · have h2 := nodeCount_pos c
    simp only [nodeCountList]
    omega
end

/-- `mergeNestedFolders` as invoked on the root (`createModulesTree`): the
root itself is never absorbed into its child, only its descendants are
merged. -/
def mergeNestedFolders (root : CNode) : CNode :=
  root.setChildren (mergeList root.childrenOf)

/-- `createModulesTree` (src/unnamed/part_000 lines 240-247): a root folder
named `.` — built with no options — every module inserted in order, then
the one-shot merge pass. -/
def createModulesTree (modules : List StatModule) : CNode :=
  mergeNestedFolders (insertList (.folder "." [] none) modules)

/-- One chart-data record for a tree node.  Modelled from the spec:
`BaseFolder.toChartData` (not under `src/`) supplies `label`, `statSize`
and `groups` (the recursive projection of the children, absent for plain
leaves); `Folder.toChartData` (src/unnamed/part_001 lines 60-66) adds
`parsedSize` and `gzipSize`.  The derived `path` field is omitted: it is a
display-only join of ancestor labels. -/
inductive ChartData where
  | mk (label : String) (statSize : Nat) (parsedSize : Nat) (gzipSize : Nat)
      (groups : Option (List ChartData))
deriving Repr

def ChartData.label : ChartData → String
  | .mk l _ _ _ _ => l

def ChartData.statSize : ChartData → Nat
  | .mk _ s _ _ _ => s

def ChartData.parsedSize : ChartData → Nat
  | .mk _ _ p _ _ => p

def ChartData.gzipSize : ChartData → Nat
  | .mk _ _ _ g _ => g

def ChartData.groups : ChartData → Option (List ChartData)
  | .mk _ _ _ _ g => g

mutual
/-- `Folder.toChartData` (src/unnamed/part_001 lines 60-66) as a
state-passing computation: projecting a node reads its children's
projections (`super.toChartData()`'s `groups`), its sizes and its memoized
`gzipSize`, and returns the chart data together with the node as left
behind by the reads (gzip memos now filled). -/
def toChartDataM (opts : Option (String → Nat)) : CNode → Except String (ChartData × CNode)
  | .module nm sz src gz =>
    match gzipRead opts (.module nm sz src gz) with
    | .error e => .error e
    | .ok (v, n', _) =>
      .ok (.mk nm sz (parsedSize (.module nm sz src gz)) v none, n')
  | .cmodule nm sz src cs gz =>
    match toChartDataListM opts cs with
    | .error e => .error e
    | .ok (gs, cs') =>
      match gzipRead opts (.cmodule nm sz src cs' gz) with
      | .error e => .error e
      | .ok (v, n', _) =>
        .ok (.mk nm sz (parsedSize (.cmodule nm sz src cs' gz)) v (some gs), n')
  | .folder nm cs gz =>
    match toChartDataListM opts cs with
    | .error e => .error e
    | .ok (gs, cs') =>
      match gzipRead opts (.folder nm cs' gz) with
      | .error e => .error e
      | .ok (v, n', _) =>
        .ok (.mk nm (statSizeList cs') (parsedSize (.folder nm cs' gz)) v (some gs), n')
/-- `_.invokeMap(children, 'toChartData')`: project each node of a list,
threading the cache updates. -/
def toChartDataListM (opts : Option (String → Nat)) :
    List CNode → Except String (List ChartData × List CNode)
  | [] => .ok ([], [])
  | c :: cs =>
    match toChartDataM opts c with
    | .error e => .error e
    | .ok (cd, c') =>
      match toChartDataListM opts cs with
      | .error e => .error e
      | .ok (cds, cs') => .ok (cd :: cds, c' :: cs')
end

/-! ## The analyzer (`src/analyzer.js`, src/unnamed/part_000 lines 80-247)

The embedding covers the no-`bundleDir` mode: `bundlesSources` and
`parsedModules` stay `null`, so no `parsedSize`/`gzipSize` fields are set
on asset records and module records keep whatever `parsedSrc` they carry. -/

/-- `asset.name.replace(FILENAME_QUERY_REGEXP, '')` with
`FILENAME_QUERY_REGEXP = /\?.*$/u` (src/unnamed/part_000 line 91): drop
everything from the first `?` on. -/
def stripQuery (s : String) : String :=
  String.mk (s.toList.takeWhile (fun c => c ≠ '?'))

/-- Lower-case a name, character by character. -/
def lowerName (s : String) : String :=
  String.mk (s.toList.map Char.toLower)

/-- Suffix test on the characters of two strings. -/
def strEndsWith (s suffix : String) : Bool :=
  suffix.toList.isSuffixOf s.toList

/-- `FILENAME_EXTENSIONS.test(asset.name)` with
`FILENAME_EXTENSIONS = /\.(js|mjs|gz|br)$/iu` (src/unnamed/part_000 line
92): a case-insensitive suffix test. -/
def hasBundleExt (s : String) : Bool :=
  let l := lowerName s
  strEndsWith l ".js" || strEndsWith l ".mjs" || strEndsWith l ".gz" || strEndsWith l ".br"

/-- Modelled from the spec: one `excludeAssets` matcher accepted by
`createAssetsFilter` (`src/utils.js`, not under `src/`): "matching by exact
string, regular expression, or a predicate function over the filename"; a
regular expression is embedded as the predicate it denotes. -/
inductive ExcludePattern where
  | exact (s : String)
  | pred (f : String → Bool)

def ExcludePattern.matches : ExcludePattern → String → Bool
  | .exact s, n => n = s
  | .pred f, n => f n

/-- Modelled from the spec: `createAssetsFilter(excludeAssets)`
(`src/utils.js`, not under `src/`): with no patterns every asset passes;
otherwise an asset passes exactly when every exclusion matcher fails on its
name (exclusion is OR-combined). -/
def isAssetIncluded (pats : List ExcludePattern) (name : String) : Bool :=
  pats.all (fun p => !(p.matches name))

/-- The asset filter of `getViewerData` (src/unnamed/part_000 lines
129-136): each asset's name is first stripped of its query fragment (a
mutation applied to every asset), and the asset is kept when the stripped
name has a recognized extension, `chunks` is non-empty and the exclusion
filter passes. -/
def filterAssets (pats : List ExcludePattern) (assets : List Asset) : List Asset :=
  assets.filterMap (fun a =>
    let a' := { a with name := stripQuery a.name }
    if hasBundleExt a'.name && !a'.chunks.isEmpty && isAssetIncluded pats a'.name then
      some a'
    else none)

def flagChild (a : Asset) : Asset := { a with isChild := true }

/-- The indexed loop of normalization case (b) (src/unnamed/part_000 lines
113-118): for each index `i` of `1 ..< n`, read
`bundleStats.children[i].assets` — where `bundleStats` has already been
reassigned to the first child, so `cs` below is the FIRST CHILD's own
children list — flag each asset `isChild` and collect it.  A missing index
throws. -/
def collectChildAssets (cs : List RawStats) : List Nat → Except String (List Asset)
  | [] => .ok []
  | i :: rest =>
    match cs.get? i with
    | none => .error "TypeError: Cannot read properties of undefined (reading assets)"
    | some c =>
      match collectChildAssets cs rest with
      | .error e => .error e
      | .ok tail => .ok (c.assets.map flagChild ++ tail)

/-- The stats normalization of `getViewerData` (src/unnamed/part_000 lines
107-127).  Case (b): top-level `assets` empty and `children` non-empty —
the first child becomes the working object and the indexed loop above runs
for `i = 1 .. children.length - 1` against the reassigned object.  Case
(c): `children` non-empty — every child's assets are appended flagged
`isChild`.  Otherwise the stats object is unchanged. -/
def normalizeStats (s : RawStats) : Except String RawStats :=
  if s.assets.isEmpty && !s.children.isEmpty then
    match s.children with
    | [] => .ok s
    | w :: _ =>
      match collectChildAssets w.children (List.range' 1 (s.children.length - 1)) with
      | .error e => .error e
      | .ok extra => .ok (w.setAssets (w.assets ++ extra))
  else if !s.children.isEmpty then
    .ok (s.setAssets (s.assets ++ (s.children.map (fun c => c.assets.map flagChild)).flatten))
  else .ok s

/-- First-occurrence-wins deduplication by `id` — `uniqBy('id')` of
`getBundleModules`; `seen` is the set of ids already kept. -/
def uniqById (seen : List Nat) : List StatModule → List StatModule
  | [] => []
  | m :: rest =>
    if seen.contains m.id then uniqById seen rest
    else m :: uniqById (m.id :: seen) rest

/-- `getBundleModules` (src/unnamed/part_000 lines 223-231): concatenate
every chunk's `modules` (absent lists removed by `compact`) followed by the
top-level `modules` list, deduplicated by id.  (In the lodash chain, chunk
entries are still arrays when `compact` runs, so `compact` only removes the
absent ones, and `flatten` then splices them.) -/
def getBundleModules (s : RawStats) : List StatModule :=
  uniqById [] ((s.chunks.filterMap Chunk.modules).flatten ++ s.modules)

/-- `assetHasModule` (src/unnamed/part_000 lines 233-238): some chunk of
the module is among the asset's chunks. -/
def assetHasModule (a : Asset) (m : StatModule) : Bool :=
  m.chunks.any (fun mc => a.chunks.contains mc)

/-- `getChildAssetBundles` (src/unnamed/part_000 lines 214-221): the first
child stats object whose `assetsByChunkName`, with its values flattened,
contains the asset name. -/
def getChildAssetBundles (s : RawStats) (assetName : String) : Option RawStats :=
  s.children.find? (fun c =>
    ((c.assetsByChunkName.map Prod.snd).flatten).contains assetName)

/-- Lines 171-172 and 181-182 of src/unnamed/part_000: the modules matched
to one asset — the pool comes from the child bundles for a child asset
(empty when none is found) and from the stats object itself otherwise, then
is filtered by chunk intersection. -/
def modulesForAsset (s : RawStats) (a : Asset) : List StatModule :=
  match (if a.isChild then getChildAssetBundles s a.name else some s) with
  | some b => (getBundleModules b).filter (fun m => assetHasModule a m)
  | none => []

/-- One record of the chart-data array (src/unnamed/part_000 lines
192-205). -/
structure ChartRecord where
  label : String
  isAsset : Bool
  statSize : Nat
  parsedSize : Option Nat
  gzipSize : Option Nat
  groups : List ChartData

/-- The per-asset work of the two `_.transform`s (src/unnamed/part_000
lines 169-205) in no-`bundleDir` mode: match the modules, build the tree,
project the children (`_.invokeMap(asset.tree.children, 'toChartData')` —
the tree was built with no options, so projection may throw if a source is
present), and emit the record with `statSize: asset.tree.size ||
asset.size`. -/
def assetRecord (s : RawStats) (a : Asset) : Except String ChartRecord :=
  match toChartDataListM none (createModulesTree (modulesForAsset s a)).childrenOf with
  | .error e => .error e
  | .ok (gs, _) =>
    .ok ⟨a.name, true,
      if statSizeOf (createModulesTree (modulesForAsset s a)) = 0 then a.size
      else statSizeOf (createModulesTree (modulesForAsset s a)),
      none, none, gs⟩

/-- `result[statAsset.name] = ...`: JavaScript object assignment — an
existing key keeps its position but takes the new value, a new key is
appended. -/
def upsert {V : Type} : List (String × V) → String → V → List (String × V)
  | [], k, v => [(k, v)]
  | (k', v') :: rest, k, v =>
    if k' = k then (k, v) :: rest else (k', v') :: upsert rest k v

/-- The first `_.transform` of src/unnamed/part_000 lines 169-190 builds an
object keyed by asset name; the second (lines 192-205) walks that object in
key order. -/
def buildRecords (s : RawStats) :
    List Asset → List (String × ChartRecord) → Except String (List (String × ChartRecord))
  | [], acc => .ok acc
  | a :: rest, acc =>
    match assetRecord s a with
    | .error e => .error e
    | .ok r => buildRecords s rest (upsert acc a.name r)

/-- The chart-data array produced from an already normalized-and-filtered
stats object. -/
def viewerRecords (s : RawStats) : Except String (List ChartRecord) :=
  match buildRecords s s.assets [] with
  | .error e => .error e
  | .ok entries => .ok (entries.map Prod.snd)

/-- `getViewerData(bundleStats, null, {excludeAssets})` (src/unnamed/
part_000 lines 99-206): normalize, filter the asset list in place, then
build the chart-data array. -/
def getViewerDataE (pats : List ExcludePattern) (s : RawStats) :
    Except String (List ChartRecord) :=
  match normalizeStats s with
  | .error e => .error e
  | .ok s₁ => viewerRecords (s₁.setAssets (filterAssets pats s₁.assets))

/-! ## The live-update channel (`src/viewer.js`, src/unnamed/part_000
lines 248-477) -/

/-- `getChartData` (src/unnamed/part_000 lines 459-477): a thrown analysis
error yields `null`; the `isPlainObject`-and-empty guard can never fire
because `getViewerData` always returns an array, so a successful result —
even an empty array — is passed through. -/
def getChartDataOpt (pats : List ExcludePattern) (s : RawStats) :
    Option (List ChartRecord) :=
  match getViewerDataE pats s with
  | .error _ => none
  | .ok r => some r

/-- One connected WebSocket client; `isOpen` models
`readyState === WebSocket.OPEN`. -/
structure WsClient where
  id : Nat
  isOpen : Bool

/-- The message sent on updates (src/unnamed/part_000 lines 365-368). -/
structure WsMessage where
  event : String
  data : List ChartRecord

/-- The state owned by `startServer`: the held `chartData` and the set of
connected clients (`wss.clients`). -/
structure ChannelState where
  chartData : Option (List ChartRecord)
  clients : List WsClient

/-- `updateChartData` (src/unnamed/part_000 lines 356-371): recompute; on
`null` discard and send nothing; otherwise replace the held state and send
one `chartDataUpdated` message to every client in the OPEN state.  Returns
the new state and the list of (client id, message) sends. -/
def updateChartData (pats : List ExcludePattern) (st : ChannelState)
    (newStats : RawStats) : ChannelState × List (Nat × WsMessage) :=
  match getChartDataOpt pats newStats with
  | none => (st, [])
  | some d =>
    ({ st with chartData := some d },
     (st.clients.filter (fun c => c.isOpen)).map (fun c => (c.id, ⟨"chartDataUpdated", d⟩)))

/-! ## Lemmas about sizes and sources -/

theorem parsedSize_eq_length (n : CNode) : parsedSize n = (nodeSrc n).length := by
  unfold parsedSize
  by_cases h : nodeSrc n = ""
  · rw [if_pos h, h]
    rfl
  · rw [if_neg h]

theorem concatSrcs_length (cs : List CNode) :
    (concatSrcs cs).length = (cs.map parsedSize).sum := by
  induction cs with
  | nil => simp [concatSrcs]
  | cons c cs ih =>
    simp [concatSrcs, String.length_append, ih, parsedSize_eq_length]

/-- C1: for every tree node, `parsedSize` equals the byte length of its
attributed source text when that is present; when it is absent it equals
the sum of the children's `parsedSize`, and 0 when additionally there are
no children. -/
theorem c1_parsed_size (n : CNode) :
    (∀ s, srcOf n = some s → parsedSize n = s.length) ∧
    (srcOf n = none → parsedSize n = (n.childrenOf.map parsedSize).sum) ∧
    (srcOf n = none → n.childrenOf = [] → parsedSize n = 0) := by
  refine ⟨?_, ?_, ?_⟩
  · intro s hs
    cases n with
    | module nm sz src gz =>
      simp [srcOf] at hs
      subst hs
      simp [parsedSize_eq_length, nodeSrc]
    | cmodule nm sz src cs gz =>
      simp [srcOf] at hs
      subst hs
      simp [parsedSize_eq_length, nodeSrc]
    | folder nm cs gz => simp [srcOf] at hs
  · intro hn
    cases n with
    | module nm sz src gz =>
      simp [srcOf] at hn
      subst hn
      simp [parsedSize, nodeSrc, CNode.childrenOf, Option.getD]
    | cmodule nm sz src cs gz =>
      simp [srcOf] at hn
      subst hn
      simp [parsedSize_eq_length, nodeSrc, CNode.childrenOf, concatSrcs_length]
    | folder nm cs gz =>
      simp [parsedSize_eq_length, nodeSrc, CNode.childrenOf, concatSrcs_length]
  · intro hn hc
    cases n with
    | module nm sz src gz =>
      simp [srcOf] at hn
      subst hn
      simp [parsedSize, nodeSrc, Option.getD]
    | cmodule nm sz src cs gz =>
      simp [srcOf] at hn
      subst hn
      simp [CNode.childrenOf] at hc
      subst hc
      simp [parsedSize, nodeSrc, concatSrcs]
    | folder nm cs gz =>
      simp [CNode.childrenOf] at hc
      subst hc
      simp [parsedSize, nodeSrc, concatSrcs]

def exC1 : CNode :=
  .folder "src" [.module "a.js" 1 (some "ab") none, .module "b.js" 2 none none] none

theorem c1_parsed_size_witness :
    srcOf exC1 = none ∧ parsedSize exC1 = (exC1.childrenOf.map parsedSize).sum :=
  ⟨rfl, (c1_parsed_size exC1).2.1 rfl⟩

/-! ## Memoization of `gzipSize` and idempotence of projection -/

theorem gzCacheOf_setGzCache (n : CNode) (v : Nat) :
    (setGzCache n v).gzCacheOf = some v := by
  cases n <;> rfl

theorem gzipRead_ok_shape {opts : Option (String → Nat)} {n : CNode} {v : Nat}
    {n' : CNode} {k : Nat} (h : gzipRead opts n = .ok (v, n', k)) :
    n'.gzCacheOf = some v ∧ k ≤ 1 ∧ (n' = n ∨ n' = setGzCache n v) := by
  unfold gzipRead at h
  cases hc : n.gzCacheOf with
  | some w =>
    rw [hc] at h
    simp only [Except.ok.injEq, Prod.mk.injEq] at h
    obtain ⟨hv, hn, hk⟩ := h
    subst hv; subst hn; subst hk
    exact ⟨hc, by omega, Or.inl rfl⟩
  | none =>
    rw [hc] at h
    by_cases hs : nodeSrc n = ""
    · rw [if_pos hs] at h
      simp only [Except.ok.injEq, Prod.mk.injEq] at h
      obtain ⟨hv, hn, hk⟩ := h
      subst hv; subst hn; subst hk
      exact ⟨gzCacheOf_setGzCache n 0, by omega, Or.inr rfl⟩
    · rw [if_neg hs] at h
      cases opts with
      | none => simp at h
      | some f =>
        simp only [Except.ok.injEq, Prod.mk.injEq] at h
        obtain ⟨hv, hn, hk⟩ := h
        subst hv; subst hn; subst hk
        exact ⟨gzCacheOf_setGzCache n _, by omega, Or.inr rfl⟩

theorem gzipRead_idem {opts : Option (String → Nat)} {n : CNode} {v : Nat}
    {n' : CNode} {k : Nat} (h : gzipRead opts n = .ok (v, n', k)) :
    gzipRead opts n' = .ok (v, n', 0) := by
  have hc := (gzipRead_ok_shape h).1
  unfold gzipRead
  rw [hc]

theorem parsedSize_cmodule_cache (nm : String) (sz : Nat) (src : Option String)
    (cs : List CNode) (g₁ g₂ : Option Nat) :
    parsedSize (.cmodule nm sz src cs g₁) = parsedSize (.cmodule nm sz src cs g₂) := by
  unfold parsedSize
  cases src <;> rfl

theorem parsedSize_folder_cache (nm : String) (cs : List CNode) (g₁ g₂ : Option Nat) :
    parsedSize (.folder nm cs g₁) = parsedSize (.folder nm cs g₂) := by
  rfl

theorem parsedSize_module_cache (nm : String) (sz : Nat) (src : Option String)
    (g₁ g₂ : Option Nat) :
    parsedSize (.module nm sz src g₁) = parsedSize (.module nm sz src g₂) := by
  rfl

mutual
theorem tcdIdem (opts : Option (String → Nat)) :
    ∀ (n : CNode) (cd : ChartData) (n' : CNode),
      toChartDataM opts n = .ok (cd, n') → toChartDataM opts n' = .ok (cd, n')
  | .module nm sz src gz => by
    intro cd n' h
    unfold toChartDataM at h
    cases hg : gzipRead opts (.module nm sz src gz) with
    | error e =>
      rw [hg] at h
      exact absurd h (by simp)
    | ok t =>
      obtain ⟨v, n₂, k⟩ := t
      rw [hg] at h
      simp only [Except.ok.injEq, Prod.mk.injEq] at h
      obtain ⟨hcd, hn⟩ := h
      subst hcd; subst hn
      rcases (gzipRead_ok_shape hg).2.2 with hsh | hsh
      · subst hsh
        unfold toChartDataM
        rw [gzipRead_idem hg]
      · subst hsh
        simp only [setGzCache] at hg ⊢
        unfold toChartDataM
        have hcache : gzipRead opts (CNode.module nm sz src (some v))
            = .ok (v, CNode.module nm sz src (some v), 0) := rfl
        rw [hcache]
        rfl
  | .cmodule nm sz src cs gz => by
    intro cd n' h
    unfold toChartDataM at h
    cases hcs : toChartDataListM opts cs with
    | error e =>
      rw [hcs] at h
      exact absurd h (by simp)
    | ok p =>
      obtain ⟨gs, cs'⟩ := p
      rw [hcs] at h
      simp only [Except.ok.injEq] at h
      cases hg : gzipRead opts (.cmodule nm sz src cs' gz) with
      | error e =>
        rw [hg] at h
        exact absurd h (by simp)
      | ok t =>
        obtain ⟨v, n₂, k⟩ := t
        rw [hg] at h
        simp only [Except.ok.injEq, Prod.mk.injEq] at h
        obtain ⟨hcd, hn⟩ := h
        subst hcd; subst hn
        have hlist := tcdListIdem opts cs gs cs' hcs
        rcases (gzipRead_ok_shape hg).2.2 with hsh | hsh
        · subst hsh
          unfold toChartDataM
          simp only [hlist]
          rw [gzipRead_idem hg]
        · subst hsh
          simp only [setGzCache] at hg ⊢
          unfold toChartDataM
          simp only [hlist]
          have hcache : gzipRead opts (CNode.cmodule nm sz src cs' (some v))
              = .ok (v, CNode.cmodule nm sz src cs' (some v), 0) := rfl
          rw [hcache, parsedSize_cmodule_cache nm sz src cs' (some v) gz]
  | .folder nm cs gz => by
    intro cd n' h
    unfold toChartDataM at h
    cases hcs : toChartDataListM opts cs with
    | error e =>
      rw [hcs] at h
      exact absurd h (by simp)
    | ok p =>
      obtain ⟨gs, cs'⟩ := p
      rw [hcs] at h
      simp only [Except.ok.injEq] at h
      cases hg : gzipRead opts (.folder nm cs' gz) with
      | error e =>
        rw [hg] at h
        exact absurd h (by simp)
      | ok t =>
        obtain ⟨v, n₂, k⟩ := t
        rw [hg] at h
        simp only [Except.ok.injEq, Prod.mk.injEq] at h
        obtain ⟨hcd, hn⟩ := h
        subst hcd; subst hn
        have hlist := tcdListIdem opts cs gs cs' hcs
        rcases (gzipRead_ok_shape hg).2.2 with hsh | hsh
        · subst hsh
          unfold toChartDataM
          simp only [hlist]
          rw [gzipRead_idem hg]
        · subst hsh
          simp only [setGzCache] at hg ⊢
          unfold toChartDataM
          simp only [hlist]
          have hcache : gzipRead opts (CNode.folder nm cs' (some v))
              = .ok (v, CNode.folder nm cs' (some v), 0) := rfl
          rw [hcache]
          rfl
theorem tcdListIdem (opts : Option (String → Nat)) :
    ∀ (cs : List CNode) (cds : List ChartData) (cs' : List CNode),
      toChartDataListM opts cs = .ok (cds, cs') → toChartDataListM opts cs' = .ok (cds, cs')
  | [] => by
    intro cds cs' h
    unfold toChartDataListM at h
    simp only [Except.ok.injEq, Prod.mk.injEq] at h
    obtain ⟨h1, h2⟩ := h
    subst h1; subst h2
    rfl
  | c :: cs => by
    intro cds cs' h
    unfold toChartDataListM at h
    cases hc : toChartDataM opts c with
    | error e =>
      rw [hc] at h
      exact absurd h (by simp)
    | ok p =>
      obtain ⟨cd, c'⟩ := p
      rw [hc] at h
      simp only [Except.ok.injEq] at h
      cases hrest : toChartDataListM opts cs with
      | error e =>
        rw [hrest] at h
        exact absurd h (by simp)
      | ok q =>
        obtain ⟨cds₀, cs₀⟩ := q
        rw [hrest] at h
        simp only [Except.ok.injEq, Prod.mk.injEq] at h
        obtain ⟨h1, h2⟩ := h
        subst h1; subst h2
        have hh := tcdIdem opts c cd c' hc
        have ht := tcdListIdem opts cs cds₀ cs₀ hrest
        unfold toChartDataListM
        simp only [hh, ht]
end

/-- C8: for every node, `gzipSize` is computed at most once (its memo is
filled on the first read and every later read returns the cached value
without invoking the compression function), and projecting the same
finalized tree twice yields identical chart data. -/
theorem c8_gzip_memoized_idempotent :
    (∀ (opts : Option (String → Nat)) (n : CNode) (v : Nat) (n' : CNode) (k : Nat),
        gzipRead opts n = .ok (v, n', k) →
        k ≤ 1 ∧ gzipRead opts n' = .ok (v, n', 0)) ∧
    (∀ (opts : Option (String → Nat)) (n : CNode) (cd : ChartData) (n' : CNode),
        toChartDataM opts n = .ok (cd, n') → toChartDataM opts n' = .ok (cd, n')) := by
  constructor
  · intro opts n v n' k h
    exact ⟨(gzipRead_ok_shape h).2.1, gzipRead_idem h⟩
  · intro opts n cd n' h
    exact tcdIdem opts n cd n' h

theorem c8_gzip_memoized_idempotent_witness :
    (1 ≤ 1 ∧ gzipRead (some String.length) (CNode.module "m.js" 3 (some "abc") (some 3))
        = .ok (3, CNode.module "m.js" 3 (some "abc") (some 3), 0)) ∧
    toChartDataM none (CNode.folder "f" [CNode.module "a.js" 5 none (some 0)] (some 0))
      = .ok (.mk "f" 5 0 0 (some [.mk "a.js" 5 0 0 none]),
             .folder "f" [.module "a.js" 5 none (some 0)] (some 0)) :=
  ⟨c8_gzip_memoized_idempotent.1 (some String.length)
      (.module "m.js" 3 (some "abc") none) 3 (.module "m.js" 3 (some "abc") (some 3)) 1 rfl,
   c8_gzip_memoized_idempotent.2 none (.folder "f" [.module "a.js" 5 none none] none)
      (.mk "f" 5 0 0 (some [.mk "a.js" 5 0 0 none]))
      (.folder "f" [.module "a.js" 5 none (some 0)] (some 0)) rfl⟩

/-! ## Source-less trees: safety of `gzipSize` without compression options -/

mutual
/-- No node of the tree carries an attributed source text. -/
def srcFree : CNode → Bool
  | .module _ _ src _ => src.isNone
  | .cmodule _ _ src cs _ => src.isNone && srcFreeList cs
  | .folder _ cs _ => srcFreeList cs
def srcFreeList : List CNode → Bool
  | [] => true
  | c :: cs => srcFree c && srcFreeList cs
end

mutual
theorem srcFree_nodeSrc : ∀ (n : CNode), srcFree n = true → nodeSrc n = ""
  | .module nm sz src gz => by
    intro h
    simp [srcFree, Option.isNone_iff_eq_none] at h
    subst h
    rfl
  | .cmodule nm sz src cs gz => by
    intro h
    simp [srcFree, Option.isNone_iff_eq_none] at h
    obtain ⟨h1, h2⟩ := h
    subst h1
    simpa [nodeSrc] using srcFreeList_concatSrcs cs h2
  | .folder nm cs gz => by
    intro h
    simp [srcFree] at h
    simpa [nodeSrc] using srcFreeList_concatSrcs cs h
theorem srcFreeList_concatSrcs : ∀ (cs : List CNode), srcFreeList cs = true → concatSrcs cs = ""
  | [] => by
    intro h
    rfl
  | c :: cs => by
    intro h
    simp [srcFreeList] at h
    obtain ⟨h1, h2⟩ := h
    have e1 := srcFree_nodeSrc c h1
    have e2 := srcFreeList_concatSrcs cs h2
    simp [concatSrcs, e1, e2]
end

theorem srcFree_setGzCache (n : CNode) (v : Nat) :
    srcFree (setGzCache n v) = srcFree n := by
  cases n <;> rfl

theorem srcFree_childrenOf {n : CNode} (h : srcFree n = true) :
    srcFreeList n.childrenOf = true := by
  cases n with
  | module nm sz src gz => rfl
  | cmodule nm sz src cs gz =>
    simp [srcFree] at h
    simpa [CNode.childrenOf] using h.2
  | folder nm cs gz => simpa [CNode.childrenOf, srcFree] using h

theorem srcFree_setChildren {cur : CNode} {cs : List CNode}
    (h1 : srcFree cur = true) (h2 : srcFreeList cs = true) :
    srcFree (cur.setChildren cs) = true := by
  cases cur <;> simp_all [srcFree, CNode.setChildren]

theorem srcFreeList_setChild {cs : List CNode} {c : CNode} (nm : String)
    (h1 : srcFreeList cs = true) (h2 : srcFree c = true) :
    srcFreeList (setChild cs nm c) = true := by
  induction cs with
  | nil => simpa [setChild, srcFreeList]
  | cons x xs ih =>
    simp [srcFreeList] at h1
    by_cases hx : x.cname = nm
    · simpa [setChild, hx, srcFreeList] using ⟨h2, h1.2⟩
    · simpa [setChild, hx, srcFreeList] using ⟨h1.1, ih h1.2⟩

theorem srcFree_getChild {cs : List CNode} {nm : String} {c : CNode}
    (h1 : srcFreeList cs = true) (h2 : getChild cs nm = some c) :
    srcFree c = true := by
  induction cs with
  | nil => simp [getChild] at h2
  | cons x xs ih =>
    simp [srcFreeList] at h1
    unfold getChild at h2
    rw [List.find?] at h2
    by_cases hx : x.cname = nm
    · simp [hx] at h2
      subst h2
      exact h1.1
    · simp [hx] at h2
      exact ih h1.2 h2

theorem srcFree_insertInto {leaf : CNode} (h2 : srcFree leaf = true) :
    ∀ (path : List String) (cur : CNode), srcFree cur = true →
      srcFree (insertInto leaf cur path) = true := by
  intro path
  induction path with
  | nil =>
    intro cur h1
    unfold insertInto
    exact srcFree_setChildren h1
      (srcFreeList_setChild leaf.cname (srcFree_childrenOf h1) h2)
  | cons f rest ih =>
    intro cur h1
    unfold insertInto
    have hstart : srcFree (match getChild cur.childrenOf f with
        | some c => if c.isFolder then c else .folder f [] none
        | none => .folder f [] none) = true := by
      cases hg : getChild cur.childrenOf f with
      | none => rfl
      | some c =>
        by_cases hc : c.isFolder
        · simpa [hc] using srcFree_getChild (srcFree_childrenOf h1) hg
        · simp [hc]
          rfl
    exact srcFree_setChildren h1
      (srcFreeList_setChild f (srcFree_childrenOf h1) (ih _ hstart))

mutual
/-- No `parsedSrc` anywhere in a module record. -/
def moduleNoSrc : StatModule → Bool
  | .mk _ _ _ subs ps _ =>
    ps.isNone &&
      (match subs with
       | none => true
       | some l => moduleListNoSrc l)
def moduleListNoSrc : List StatModule → Bool
  | [] => true
  | m :: rest => moduleNoSrc m && moduleListNoSrc rest
end


theorem insertModule_no_path (cur : CNode) (i sz : Nat) (ch : List Nat)
    (subs : Option (List StatModule)) (ps : Option String) :
    insertModule cur (.mk i sz ch subs ps none) = cur := rfl

theorem insertModule_plain (cur : CNode) (i sz : Nat) (ch : List Nat)
    (ps : Option String) (parts : List String) :
    insertModule cur (.mk i sz ch none ps (some parts)) =
      match parts.getLast? with
      | none => cur
      | some fileName =>
        insertInto (.module fileName sz ps none) cur parts.dropLast := rfl

theorem insertModule_concat (cur : CNode) (i sz : Nat) (ch : List Nat)
    (subList : List StatModule) (ps : Option String) (parts : List String) :
    insertModule cur (.mk i sz ch (some subList) ps (some parts)) =
      match parts.getLast? with
      | none => cur
      | some fileName =>
        insertInto (insertList (.cmodule fileName sz ps [] none) subList)
          cur parts.dropLast := rfl

mutual
theorem srcFree_insertModule : ∀ (cur : CNode) (m : StatModule),
    srcFree cur = true → moduleNoSrc m = true → srcFree (insertModule cur m) = true
  | cur, .mk i sz ch subs ps pp => by
    intro h1 hm
    unfold moduleNoSrc at hm
    simp only [Bool.and_eq_true, Option.isNone_iff_eq_none] at hm
    obtain ⟨hps, hsubs⟩ := hm
    cases pp with
    | none => rw [insertModule_no_path]; exact h1
    | some parts =>
      cases subs with
      | none =>
        rw [insertModule_plain]
        cases hl : parts.getLast? with
        | none => exact h1
        | some fileName =>
          apply srcFree_insertInto _ parts.dropLast cur h1
          simp [srcFree, hps]
      | some subList =>
        rw [insertModule_concat]
        cases hl : parts.getLast? with
        | none => exact h1
        | some fileName =>
          apply srcFree_insertInto _ parts.dropLast cur h1
          apply srcFree_insertList (CNode.cmodule fileName sz ps [] none) subList
          · simp [srcFree, srcFreeList, hps]
          · simpa using hsubs
theorem srcFree_insertList : ∀ (cur : CNode) (ms : List StatModule),
    srcFree cur = true → moduleListNoSrc ms = true → srcFree (insertList cur ms) = true
  | cur, [] => by
    intro h1 _
    exact h1
  | cur, m :: rest => by
    intro h1 hm
    unfold moduleListNoSrc at hm
    simp only [Bool.and_eq_true] at hm
    show srcFree (insertList (insertModule cur m) rest) = true
    exact srcFree_insertList (insertModule cur m) rest
      (srcFree_insertModule cur m h1 hm.1) hm.2
end

theorem srcFree_absorbChain : ∀ (n : CNode), srcFree n = true → srcFree (absorbChain n) = true
  | .module nm sz src gz => by
    intro h
    simpa [absorbChain] using h
  | .cmodule nm sz src cs gz => by
    intro h
    simpa [absorbChain] using h
  | .folder name [] gz => by
    intro h
    simpa [absorbChain] using h
  | .folder name [c] gz => by
    intro h
    rw [absorbChain]
    by_cases hf : c.isFolder = true
    · simp only [hf, if_true]
      have hc : srcFree c = true := by
        simp [srcFree, srcFreeList] at h
        exact h
      apply srcFree_absorbChain
      cases c with
      | folder cn ccs cgz => simpa [srcFree, CNode.childrenOf] using hc
      | module _ _ _ _ => simp [CNode.isFolder] at hf
      | cmodule _ _ _ _ _ => simp [CNode.isFolder] at hf
    · simpa [hf] using h
  | .folder name (c₁ :: c₂ :: rest) gz => by
    intro h
    simpa [absorbChain] using h
termination_by n => nodeCount n
decreasing_by
  cases c <;> simp_all [CNode.isFolder, nodeCount, nodeCountList, CNode.childrenOf]

mutual
theorem srcFree_mergeNode (n : CNode) (h : srcFree n = true) :
    srcFree (mergeNode n) = true := by
  unfold mergeNode
  have h1 := srcFree_absorbChain n h
  exact srcFree_setChildren h1 (srcFree_mergeList (absorbChain n).childrenOf (srcFree_childrenOf h1))
termination_by 2 * nodeCount n
decreasing_by
  have h1 := absorbChain_nodeCount_le n
  have h2 := nodeCountList_childrenOf_lt (absorbChain n)
  omega
theorem srcFree_mergeList : ∀ (cs : List CNode),
    srcFreeList cs = true → srcFreeList (mergeList cs) = true
  | [] => by
    intro h
    simpa [mergeList] using h
  | c :: cs => by
    intro h
    simp only [srcFreeList, Bool.and_eq_true] at h
    rw [mergeList]
    simp only [srcFreeList, Bool.and_eq_true]
    exact ⟨srcFree_mergeNode c h.1, srcFree_mergeList cs h.2⟩
termination_by cs => 2 * nodeCountList cs + 1
decreasing_by
  · have h1 : nodeCount c ≤ nodeCountList (c :: cs) := nodeCount_mem_le (by simp)
    omega
  · have h2 := nodeCount_pos c
    simp only [nodeCountList]
    omega
end

theorem srcFree_createModulesTree {mods : List StatModule}
    (h : moduleListNoSrc mods = true) : srcFree (createModulesTree mods) = true := by
  unfold createModulesTree mergeNestedFolders
  have hroot : srcFree (insertList (.folder "." [] none) mods) = true :=
    srcFree_insertList _ mods rfl h
  exact srcFree_setChildren hroot
    (srcFree_mergeList (insertList (.folder "." [] none) mods).childrenOf
      (srcFree_childrenOf hroot))

theorem gzipRead_srcFree_ok (opts : Option (String → Nat)) {n : CNode}
    (h : srcFree n = true) :
    ∃ v n', gzipRead opts n = .ok (v, n', 0) ∧ srcFree n' = true := by
  cases hc : n.gzCacheOf with
  | some v =>
    refine ⟨v, n, ?_, h⟩
    unfold gzipRead
    rw [hc]
  | none =>
    refine ⟨0, setGzCache n 0, ?_, ?_⟩
    · unfold gzipRead
      rw [hc, srcFree_nodeSrc n h]
      simp
    · rw [srcFree_setGzCache]
      exact h

mutual
theorem tcdOkSrcFree : ∀ (n : CNode), srcFree n = true →
    ∃ cd n', toChartDataM none n = .ok (cd, n') ∧ srcFree n' = true
  | .module nm sz src gz => by
    intro h
    obtain ⟨v, n', hgz, hsf⟩ := gzipRead_srcFree_ok none (n := .module nm sz src gz) h
    refine ⟨.mk nm sz (parsedSize (.module nm sz src gz)) v none, n', ?_, hsf⟩
    unfold toChartDataM
    simp only [hgz]
  | .cmodule nm sz src cs gz => by
    intro h
    simp only [srcFree, Bool.and_eq_true] at h
    obtain ⟨gs, cs', hlist, hcs'⟩ := tcdListOkSrcFree cs h.2
    have hnode : srcFree (CNode.cmodule nm sz src cs' gz) = true := by
      simp only [srcFree, Bool.and_eq_true]
      exact ⟨h.1, hcs'⟩
    obtain ⟨v, n', hgz, hsf⟩ := gzipRead_srcFree_ok none hnode
    refine ⟨.mk nm sz (parsedSize (.cmodule nm sz src cs' gz)) v (some gs), n', ?_, hsf⟩
    unfold toChartDataM
    simp only [hlist]
    simp only [hgz]
  | .folder nm cs gz => by
    intro h
    simp only [srcFree] at h
    obtain ⟨gs, cs', hlist, hcs'⟩ := tcdListOkSrcFree cs h
    have hnode : srcFree (CNode.folder nm cs' gz) = true := by
      simpa [srcFree] using hcs'
    obtain ⟨v, n', hgz, hsf⟩ := gzipRead_srcFree_ok none hnode
    refine ⟨.mk nm (statSizeList cs') (parsedSize (.folder nm cs' gz)) v (some gs), n', ?_, hsf⟩
    unfold toChartDataM
    simp only [hlist]
    simp only [hgz]
theorem tcdListOkSrcFree : ∀ (cs : List CNode), srcFreeList cs = true →
    ∃ cds cs', toChartDataListM none cs = .ok (cds, cs') ∧ srcFreeList cs' = true
  | [] => by
    intro h
    exact ⟨[], [], rfl, rfl⟩
  | c :: cs => by
    intro h
    simp only [srcFreeList, Bool.and_eq_true] at h
    obtain ⟨cd, c', hc, hcf⟩ := tcdOkSrcFree c h.1
    obtain ⟨cds, cs', hrest, hcs'⟩ := tcdListOkSrcFree cs h.2
    refine ⟨cd :: cds, c' :: cs', ?_, by simp [srcFreeList, hcf, hcs']⟩
    unfold toChartDataListM
    simp only [hc]
    simp only [hrest]
end

/-- C10: reading `gzipSize` on a node of a source-less tree returns 0,
caches 0, and never invokes the compression function; projecting a whole
source-less tree with no compression options (the way `createModulesTree`
builds its root) cannot fail; and inserting modules that carry no
`parsedSrc` anywhere — the stats-only mode — always produces such a
source-less tree. -/
theorem c10_srcless_gzip_safe :
    (∀ n : CNode, srcFree n = true → n.gzCacheOf = none →
        gzipRead none n = .ok (0, setGzCache n 0, 0)) ∧
    (∀ n : CNode, srcFree n = true →
        ∃ cd n', toChartDataM none n = .ok (cd, n')) ∧
    (∀ mods : List StatModule, moduleListNoSrc mods = true →
        srcFree (createModulesTree mods) = true) := by
  refine ⟨?_, ?_, ?_⟩
  · intro n h hc
    unfold gzipRead
    rw [hc, srcFree_nodeSrc n h]
    simp
  · intro n h
    obtain ⟨cd, n', he, _⟩ := tcdOkSrcFree n h
    exact ⟨cd, n', he⟩
  · intro mods h
    exact srcFree_createModulesTree h

theorem c10_srcless_gzip_safe_witness :
    gzipRead none (CNode.module "a.js" 10 none none)
      = .ok (0, setGzCache (CNode.module "a.js" 10 none none) 0, 0) ∧
    srcFree (createModulesTree [StatModule.mk 1 10 [0] none none (some ["src", "a.js"])])
      = true :=
  ⟨c10_srcless_gzip_safe.1 (CNode.module "a.js" 10 none none) rfl rfl,
   c10_srcless_gzip_safe.2.2 [StatModule.mk 1 10 [0] none none (some ["src", "a.js"])] rfl⟩

/-! ## Insertion over an occupied name -/

theorem setChildren_cname (n : CNode) (cs : List CNode) :
    (n.setChildren cs).cname = n.cname := by
  cases n <;> rfl

theorem getChild_setChild (cs : List CNode) (nm : String) (c : CNode)
    (h : c.cname = nm) : getChild (setChild cs nm c) nm = some c := by
  induction cs with
  | nil => simp [setChild, getChild, List.find?, h]
  | cons x xs ih =>
    by_cases hx : x.cname = nm
    · simp [setChild, hx, getChild, List.find?, h]
    · simp only [setChild, if_neg hx]
      simpa [getChild, List.find?, hx] using ih

theorem setChild_setChild (cs : List CNode) (nm : String) (a b : CNode)
    (ha : a.cname = nm) : setChild (setChild cs nm a) nm b = setChild cs nm b := by
  induction cs with
  | nil => simp [setChild, ha]
  | cons x xs ih =>
    by_cases hx : x.cname = nm
    · simp [setChild, hx, ha]
    · simp [setChild, hx, ha, ih]

theorem insertInto_folder_shape (leaf : CNode) (path : List String)
    (nm : String) (cs : List CNode) (gz : Option Nat) :
    ∃ cs', insertInto leaf (.folder nm cs gz) path = .folder nm cs' gz := by
  cases path with
  | nil => exact ⟨_, rfl⟩
  | cons f rest => exact ⟨_, rfl⟩

/-- C7: during insertion, when the child at an intermediate path segment
exists but is not a folder, the previous leaf is discarded — inserting into
the tree is the same as inserting after that child has been replaced by a
new empty folder — and the node left at that segment is a folder. -/
theorem c7_nonfolder_replaced
    (cur : CNode) (i sz : Nat) (ch : List Nat) (subs : Option (List StatModule))
    (ps : Option String) (parts : List String) (f : String) (rest : List String)
    (c : CNode)
    (hsplit : parts.dropLast = f :: rest)
    (hc : getChild cur.childrenOf f = some c)
    (hnf : c.isFolder = false) :
    insertModule cur (.mk i sz ch subs ps (some parts))
      = insertModule (cur.setChildren (setChild cur.childrenOf f (.folder f [] none)))
          (.mk i sz ch subs ps (some parts)) ∧
    ∃ cs' gz',
      getChild (insertModule cur (.mk i sz ch subs ps (some parts))).childrenOf f
        = some (.folder f cs' gz') := by
  have hparts : parts ≠ [] := by
    intro he
    rw [he] at hsplit
    simp at hsplit
  obtain ⟨fileName, hlast⟩ : ∃ fn, parts.getLast? = some fn := by
    cases hl : parts.getLast? with
    | none => exact absurd (List.getLast?_eq_none_iff.mp hl) hparts
    | some fn => exact ⟨fn, rfl⟩
  -- both shapes of the record insert the same leaf along the same path
  obtain ⟨leaf, hred⟩ : ∃ leaf, ∀ (t : CNode),
      insertModule t (.mk i sz ch subs ps (some parts))
        = insertInto leaf t parts.dropLast := by
    cases subs with
    | none =>
      refine ⟨.module fileName sz ps none, fun t => ?_⟩
      rw [insertModule_plain, hlast]
    | some subList =>
      refine ⟨insertList (.cmodule fileName sz ps [] none) subList, fun t => ?_⟩
      rw [insertModule_concat, hlast]
  -- the current node cannot be a plain module: it has a child
  have hcur : cur.childrenOf ≠ [] := by
    intro he
    rw [he] at hc
    simp [getChild] at hc
  have hsetchildren : ∀ (l : List CNode), (cur.setChildren l).childrenOf = l := by
    intro l
    cases cur with
    | module nm₀ sz₀ src₀ gz₀ => exact absurd rfl hcur
    | cmodule nm₀ sz₀ src₀ cs₀ gz₀ => rfl
    | folder nm₀ cs₀ gz₀ => rfl
  rw [hred cur, hred (cur.setChildren (setChild cur.childrenOf f (.folder f [] none))), hsplit]
  have hlhs : insertInto leaf cur (f :: rest)
      = cur.setChildren (setChild cur.childrenOf f
          (insertInto leaf (.folder f [] none) rest)) := by
    show cur.setChildren (setChild cur.childrenOf f
        (insertInto leaf
          (match getChild cur.childrenOf f with
           | some c => if c.isFolder then c else .folder f [] none
           | none => .folder f [] none) rest))
      = _
    rw [hc]
    simp only [hnf, Bool.false_eq_true, if_false]
  have hrhs : insertInto leaf (cur.setChildren (setChild cur.childrenOf f (.folder f [] none)))
        (f :: rest)
      = cur.setChildren (setChild cur.childrenOf f
          (insertInto leaf (.folder f [] none) rest)) := by
    show (cur.setChildren (setChild cur.childrenOf f (.folder f [] none))).setChildren
        (setChild (cur.setChildren (setChild cur.childrenOf f (.folder f [] none))).childrenOf f
          (insertInto leaf
            (match getChild (cur.setChildren
                (setChild cur.childrenOf f (.folder f [] none))).childrenOf f with
             | some c => if c.isFolder then c else .folder f [] none
             | none => .folder f [] none) rest))
      = _
    rw [hsetchildren]
    rw [getChild_setChild cur.childrenOf f (.folder f [] none) rfl]
    simp only [CNode.isFolder, if_true]
    rw [setChild_setChild cur.childrenOf f (.folder f [] none) _ rfl]
    cases cur with
    | module nm₀ sz₀ src₀ gz₀ => exact absurd rfl hcur
    | cmodule nm₀ sz₀ src₀ cs₀ gz₀ => rfl
    | folder nm₀ cs₀ gz₀ => rfl
  refine ⟨hlhs.trans hrhs.symm, ?_⟩
  obtain ⟨cs', hshape⟩ := insertInto_folder_shape leaf rest f [] none
  refine ⟨cs', none, ?_⟩
  rw [hlhs, hsetchildren, hshape]
  exact getChild_setChild cur.childrenOf f _ rfl

theorem c7_nonfolder_replaced_witness :
    (insertModule (.folder "." [.module "src" 7 none none] none)
        (.mk 9 3 [0] none none (some ["src", "x", "a.js"]))
      = insertModule
          ((CNode.folder "." [.module "src" 7 none none] none).setChildren
            (setChild (CNode.folder "." [.module "src" 7 none none] none).childrenOf "src"
              (.folder "src" [] none)))
          (.mk 9 3 [0] none none (some ["src", "x", "a.js"]))) ∧
    ∃ cs' gz',
      getChild (insertModule (.folder "." [.module "src" 7 none none] none)
          (.mk 9 3 [0] none none (some ["src", "x", "a.js"]))).childrenOf "src"
        = some (.folder "src" cs' gz') :=
  c7_nonfolder_replaced (.folder "." [.module "src" 7 none none] none)
    9 3 [0] none none ["src", "x", "a.js"] "src" ["x"]
    (.module "src" 7 none none) rfl rfl rfl

/-! ## Asset filtering -/

/-- C4: every asset first has its trailing query fragment stripped, and is
retained exactly when the stripped name has one of the recognized
extensions, the chunk list is non-empty, and no exclusion matcher matches
the stripped name. -/
theorem c4_asset_filter (pats : List ExcludePattern) (assets : List Asset) :
    filterAssets pats assets
      = (assets.map (fun a => { a with name := stripQuery a.name })).filter
          (fun a => hasBundleExt a.name && !a.chunks.isEmpty
            && pats.all (fun p => !(p.matches a.name))) := by
  induction assets with
  | nil => rfl
  | cons a rest ih =>
    unfold filterAssets at ih ⊢
    simp only [List.map_cons, List.filterMap_cons, List.filter_cons]
    by_cases hcond : (hasBundleExt (stripQuery a.name) && !a.chunks.isEmpty
        && isAssetIncluded pats (stripQuery a.name)) = true
    · rw [if_pos hcond, ih]
      have : (hasBundleExt (stripQuery a.name) && !a.chunks.isEmpty
          && pats.all (fun p => !(p.matches (stripQuery a.name)))) = true := hcond
      simp [this]
    · rw [if_neg hcond, ih]
      have : (hasBundleExt (stripQuery a.name) && !a.chunks.isEmpty
          && pats.all (fun p => !(p.matches (stripQuery a.name)))) = false := by
        rw [Bool.eq_false_iff]
        exact hcond
      simp [this]

/-! ## Module matching -/

/-- The module pool exactly as the spec words it: the concatenation of the
modules of every chunk followed by the top-level modules list, deduplicated
by id keeping the first occurrence and preserving relative order. -/
def specModulePool (s : RawStats) : List StatModule :=
  ((s.chunks.map (fun c => c.modules.getD [])).flatten ++ s.modules).foldl
    (fun acc m => if acc.any (fun x => x.id = m.id) then acc else acc ++ [m]) []

theorem uniqById_foldl (l : List StatModule) :
    ∀ (acc : List StatModule) (seen : List Nat),
      (∀ i, seen.contains i = acc.any (fun x => x.id = i)) →
      l.foldl (fun acc m => if acc.any (fun x => x.id = m.id) then acc else acc ++ [m]) acc
        = acc ++ uniqById seen l := by
  induction l with
  | nil =>
    intro acc seen _
    simp [uniqById]
  | cons m rest ih =>
    intro acc seen hinv
    simp only [List.foldl_cons]
    by_cases hm : seen.contains m.id = true
    · have hacc : acc.any (fun x => x.id = m.id) = true := by
        have := hinv m.id
        rw [hm] at this
        exact this.symm
      rw [if_pos (by simpa using hacc)]
      rw [uniqById, if_pos hm]
      exact ih acc seen hinv
    · have hacc : acc.any (fun x => x.id = m.id) = false := by
        have h := hinv m.id
        rw [Bool.eq_false_iff]
        intro hx
        rw [hx] at h
        exact hm h
      rw [if_neg (by simp [hacc])]
      rw [uniqById, if_neg hm]
      have hinv' : ∀ i, (m.id :: seen).contains i
          = (acc ++ [m]).any (fun x => x.id = i) := by
        intro i
        simp only [List.contains_cons, List.any_append, List.any_cons, List.any_nil,
          Bool.or_false]
        rw [hinv i]
        by_cases him : i = m.id
        · simp [him, Bool.or_comm]
        · simp [him, Ne.symm him, Bool.or_comm]
      have := ih (acc ++ [m]) (m.id :: seen) hinv'
      rw [this]
      simp

theorem flatten_filterMap_modules (cl : List Chunk) :
    (cl.filterMap Chunk.modules).flatten
      = (cl.map (fun c => c.modules.getD [])).flatten := by
  induction cl with
  | nil => rfl
  | cons c rest ih =>
    cases hcm : c.modules <;>
      simp [List.filterMap_cons, hcm, ih]

theorem getBundleModules_eq_spec (s : RawStats) :
    getBundleModules s = specModulePool s := by
  unfold getBundleModules specModulePool
  rw [uniqById_foldl _ [] [] (fun i => rfl), flatten_filterMap_modules]
  simp

theorem assetHasModule_inter (a : Asset) (m : StatModule) :
    assetHasModule a m = !(m.chunks.inter a.chunks).isEmpty := by
  have hiff : (∃ x ∈ m.chunks, x ∈ a.chunks) ↔ ¬(m.chunks.inter a.chunks = []) := by
    unfold List.inter
    constructor
    · rintro ⟨x, hx1, hx2⟩ hnil
      have hm : x ∈ List.filter (fun y => List.elem y a.chunks) m.chunks := by
        rw [List.mem_filter]
        exact ⟨hx1, List.elem_iff.mpr hx2⟩
      rw [hnil] at hm
      simp at hm
    · intro hne
      obtain ⟨x, hx⟩ := List.exists_mem_of_ne_nil _ hne
      have hm := List.mem_filter.mp hx
      exact ⟨x, hm.1, List.elem_iff.mp hm.2⟩
  rw [Bool.eq_iff_iff]
  constructor
  · intro h
    have hex : ∃ x ∈ m.chunks, x ∈ a.chunks := by
      simpa [assetHasModule] using h
    simpa [List.isEmpty_iff] using hiff.mp hex
  · intro h
    have hne : ¬(m.chunks.inter a.chunks = []) := by
      simpa [List.isEmpty_iff] using h
    simpa [assetHasModule] using hiff.mpr hne

/-- C5: for a (non-child) asset, the matched module list equals the
concatenation of every chunk's modules followed by the top-level modules,
deduplicated by id first-occurrence-wins with order preserved, filtered to
the modules whose chunk set intersects the asset's chunk set.  The
operation is total (never throws), and when nothing intersects the filter
yields the empty list. -/
theorem c5_module_matching (s : RawStats) (a : Asset) (hnc : a.isChild = false) :
    modulesForAsset s a
      = (specModulePool s).filter (fun m => !(m.chunks.inter a.chunks).isEmpty) := by
  unfold modulesForAsset
  rw [hnc]
  simp only [Bool.false_eq_true, if_false]
  rw [getBundleModules_eq_spec]
  exact List.filter_congr (fun m _ => assetHasModule_inter a m)

def exC5M1 : StatModule := .mk 1 50 [0] none none (some ["a.js"])
def exC5M2 : StatModule := .mk 2 91 [7] none none (some ["b.js"])
def exC5 : RawStats :=
  .mk [⟨"bundle.js", 141, [0], false⟩] [⟨0, some [exC5M1, exC5M2]⟩] [exC5M1] [] []

theorem c5_module_matching_witness :
    modulesForAsset exC5 ⟨"bundle.js", 141, [0], false⟩
      = (specModulePool exC5).filter
          (fun m => !(m.chunks.inter (⟨"bundle.js", 141, [0], false⟩ : Asset).chunks).isEmpty) :=
  c5_module_matching exC5 ⟨"bundle.js", 141, [0], false⟩ rfl

/-- C6: for an asset flagged `isChild`, the module pool is drawn from the
first child stats object whose `assetsByChunkName` maps some chunk name to
the asset's name — a member of `children`, not the top-level object — and
when no such child exists the asset contributes zero modules instead of
raising an error. -/
theorem c6_child_asset_modules (s : RawStats) (a : Asset) (hch : a.isChild = true) :
    (getChildAssetBundles s a.name = none → modulesForAsset s a = []) ∧
    (∀ cb, getChildAssetBundles s a.name = some cb →
        cb ∈ s.children ∧
        (∃ p ∈ cb.assetsByChunkName, a.name ∈ p.2) ∧
        modulesForAsset s a
          = (getBundleModules cb).filter (fun m => assetHasModule a m)) := by
  constructor
  · intro hn
    unfold modulesForAsset
    rw [hch]
    simp only [if_true]
    rw [hn]
  · intro cb hcb
    refine ⟨List.mem_of_find?_eq_some hcb, ?_, ?_⟩
    · have hp := List.find?_some hcb
      simp only [decide_eq_true_eq] at hp
      have hmem : a.name ∈ (cb.assetsByChunkName.map Prod.snd).flatten := by
        simpa using hp
      rw [List.mem_flatten] at hmem
      obtain ⟨l, hl, hal⟩ := hmem
      rw [List.mem_map] at hl
      obtain ⟨p, hpmem, hpeq⟩ := hl
      exact ⟨p, hpmem, hpeq ▸ hal⟩
    · unfold modulesForAsset
      rw [hch]
      simp only [if_true]
      rw [hcb]

def exC6Child : RawStats :=
  .mk [] [⟨1, some [.mk 3 20 [1] none none (some ["c.js"])]⟩] [] [("main", ["child.js"])] []
def exC6 : RawStats :=
  .mk [⟨"child.js", 10, [1], true⟩] [] [] [] [exC6Child]

theorem c6_child_asset_modules_witness :
    exC6Child ∈ exC6.children ∧
    (∃ p ∈ exC6Child.assetsByChunkName, (⟨"child.js", 10, [1], true⟩ : Asset).name ∈ p.2) ∧
    modulesForAsset exC6 ⟨"child.js", 10, [1], true⟩
      = (getBundleModules exC6Child).filter
          (fun m => assetHasModule ⟨"child.js", 10, [1], true⟩ m) :=
  (c6_child_asset_modules exC6 ⟨"child.js", 10, [1], true⟩ rfl).2 exC6Child rfl

/-! ## Normalization case (b): the child-merge loop -/

/-- Stats with empty top-level assets and two children; the first child has
no children of its own. -/
def exC3 : RawStats :=
  .mk [] [] [] []
    [ .mk [⟨"a.js", 1, [0], false⟩] [] [] [] [],
      .mk [⟨"b.js", 2, [0], false⟩] [] [] [] [] ]

/-- Stats with empty top-level assets and two children, where the first
child happens to own two children of its own. -/
def exC3b : RawStats :=
  .mk [] [] [] []
    [ .mk [⟨"a.js", 1, [0], false⟩] [] [] []
        [ .mk [⟨"ga0.js", 3, [0], false⟩] [] [] [] [],
          .mk [⟨"ga1.js", 4, [0], false⟩] [] [] [] [] ],
      .mk [⟨"b.js", 2, [0], false⟩] [] [] [] [] ]

/-- C3 (code bug): after `bundleStats = bundleStats.children[0]`, the loop
body reads `bundleStats.children[i]` — the FIRST CHILD's children — not
`children[i]`.  When the first child has no own children the read throws a
`TypeError`; when it does, the first child's grandchild assets are appended
(flagged `isChild`) instead of the later top-level children's assets
(`b.js` is lost, `ga1.js` appears). -/
theorem c3_children_index_bug :
    normalizeStats exC3
      = .error "TypeError: Cannot read properties of undefined (reading assets)" ∧
    normalizeStats exC3b
      = .ok (.mk [⟨"a.js", 1, [0], false⟩, ⟨"ga1.js", 4, [0], true⟩] [] [] []
          [ .mk [⟨"ga0.js", 3, [0], false⟩] [] [] [] [],
            .mk [⟨"ga1.js", 4, [0], false⟩] [] [] [] [] ]) :=
  ⟨rfl, rfl⟩

/-! ## The `statSize` of a projected asset record -/

theorem upsert_append {V : Type} (acc : List (String × V)) (k : String) (v : V)
    (h : k ∉ acc.map Prod.fst) : upsert acc k v = acc ++ [(k, v)] := by
  induction acc with
  | nil => rfl
  | cons p rest ih =>
    simp only [List.map_cons, List.mem_cons] at h
    push_neg at h
    unfold upsert
    rw [if_neg (fun he => h.1 he.symm)]
    rw [ih h.2]
    simp

/-- The record built for one asset, defaulted on failure (used only to
state the intermediate lemma; under a successful run it always equals the
actual record). -/
def assetRecordD (s : RawStats) (a : Asset) : ChartRecord :=
  (assetRecord s a).toOption.getD ⟨"", true, 0, none, none, []⟩

theorem assetRecord_statSize {s : RawStats} {a : Asset} {r : ChartRecord}
    (h : assetRecord s a = .ok r) :
    r.statSize
      = (if statSizeOf (createModulesTree (modulesForAsset s a)) = 0 then a.size
         else statSizeOf (createModulesTree (modulesForAsset s a))) := by
  unfold assetRecord at h
  cases htc : toChartDataListM none (createModulesTree (modulesForAsset s a)).childrenOf with
  | error e => rw [htc] at h; exact absurd h (by simp)
  | ok p =>
    obtain ⟨gs, rest⟩ := p
    rw [htc] at h
    simp only [Except.ok.injEq] at h
    subst h
    rfl

theorem buildRecords_ok (s : RawStats) :
    ∀ (assets : List Asset) (acc entries : List (String × ChartRecord)),
      buildRecords s assets acc = .ok entries →
      (assets.map Asset.name).Nodup →
      (∀ a ∈ assets, a.name ∉ acc.map Prod.fst) →
      entries = acc ++ assets.map (fun a => (a.name, assetRecordD s a)) ∧
      ∀ a ∈ assets, ∃ r, assetRecord s a = .ok r := by
  intro assets
  induction assets with
  | nil =>
    intro acc entries h _ _
    unfold buildRecords at h
    simp only [Except.ok.injEq] at h
    subst h
    exact ⟨by simp, by simp⟩
  | cons a rest ih =>
    intro acc entries h hnodup hdis
    unfold buildRecords at h
    cases hr : assetRecord s a with
    | error e => rw [hr] at h; exact absurd h (by simp)
    | ok r =>
      rw [hr] at h
      simp only [Except.ok.injEq] at h
      have hnotin : a.name ∉ acc.map Prod.fst := hdis a (by simp)
      rw [upsert_append acc a.name r hnotin] at h
      simp only [List.map_cons, List.nodup_cons] at hnodup
      have hdis' : ∀ b ∈ rest, b.name ∉ ((acc ++ [(a.name, r)]).map Prod.fst) := by
        intro b hb
        simp only [List.map_append, List.mem_append, List.map_cons, List.map_nil,
          List.mem_singleton]
        rintro (hin | hin)
        · exact hdis b (by simp [hb]) hin
        · exact hnodup.1 (hin ▸ List.mem_map_of_mem Asset.name hb)
      obtain ⟨he, hok⟩ := ih (acc ++ [(a.name, r)]) entries h hnodup.2 hdis'
      constructor
      · rw [he]
        have hd : assetRecordD s a = r := by
          unfold assetRecordD
          rw [hr]
          rfl
        simp [hd]
      · intro b hb
        rcases List.mem_cons.mp hb with rfl | hbr
        · exact ⟨r, hr⟩
        · exact hok b hbr

/-- C2 (amended): for every retained asset, the projected record's
`statSize` equals the tree's aggregate size unless that aggregate is 0 —
in particular when the tree is empty — in which case it falls back to the
asset's own declared `size`.  (`s` stands for the normalized, filtered
stats object, whose asset names are unique.) -/
theorem c2_stat_size (s : RawStats) (recs : List ChartRecord)
    (hok : viewerRecords s = .ok recs)
    (hnodup : (s.assets.map Asset.name).Nodup) :
    recs.map ChartRecord.statSize
      = s.assets.map (fun a =>
          if statSizeOf (createModulesTree (modulesForAsset s a)) = 0 then a.size
          else statSizeOf (createModulesTree (modulesForAsset s a))) := by
  unfold viewerRecords at hok
  cases hb : buildRecords s s.assets [] with
  | error e => rw [hb] at hok; exact absurd hok (by simp)
  | ok entries =>
    rw [hb] at hok
    simp only [Except.ok.injEq] at hok
    subst hok
    obtain ⟨he, hfields⟩ := buildRecords_ok s s.assets [] entries hb hnodup (by simp)
    rw [he]
    simp only [List.nil_append, List.map_map]
    apply List.map_congr_left
    intro a ha
    obtain ⟨r, hr⟩ := hfields a ha
    have hst := assetRecord_statSize hr
    simp only [Function.comp_apply, assetRecordD, hr, Except.toOption, Option.getD_some]
    exact hst

/-- A module of declared size 0 matching the only chunk. -/
def exZM : StatModule := .mk 1 0 [0] none none (some ["a.js"])
def exZAsset : Asset := ⟨"bundle.js", 141, [0], false⟩
def exZ : RawStats := .mk [exZAsset] [⟨0, some [exZM]⟩] [] [] []

theorem exZ_tree :
    createModulesTree [exZM] = .folder "." [.module "a.js" 0 none none] none := by
  have h1 : insertList (.folder "." [] none) [exZM]
      = .folder "." [.module "a.js" 0 none none] none := rfl
  rw [createModulesTree, mergeNestedFolders, h1]
  simp only [mergeList, mergeNode, absorbChain, CNode.childrenOf, CNode.setChildren]

theorem exZ_modules : modulesForAsset exZ exZAsset = [exZM] := rfl

theorem exZ_record : assetRecord exZ exZAsset
    = .ok ⟨"bundle.js", true, 141, none, none, [.mk "a.js" 0 0 0 none]⟩ := by
  unfold assetRecord
  rw [exZ_modules, exZ_tree]
  rfl

theorem exZ_viewer : viewerRecords exZ
    = .ok [⟨"bundle.js", true, 141, none, none, [.mk "a.js" 0 0 0 none]⟩] := by
  have hb : buildRecords exZ exZ.assets []
      = .ok [("bundle.js", ⟨"bundle.js", true, 141, none, none, [.mk "a.js" 0 0 0 none]⟩)] := by
    show buildRecords exZ [exZAsset] [] = _
    unfold buildRecords
    rw [exZ_record]
    rfl
  unfold viewerRecords
  rw [hb]
  rfl

/-- C2 counterexample: on `exZ` — one retained asset of declared size 141
whose single matched module has declared size 0 — the projected record's
`statSize` is 141, although the composition tree is NOT empty (the module
matched) and its aggregate size is 0: `asset.tree.size || asset.size`
falls back on a zero aggregate, not only on an empty tree. -/
theorem c2_stat_size_counterexample :
    getViewerDataE [] exZ
      = .ok [⟨"bundle.js", true, 141, none, none, [.mk "a.js" 0 0 0 none]⟩] ∧
    modulesForAsset exZ exZAsset = [exZM] ∧
    (createModulesTree (modulesForAsset exZ exZAsset)).childrenOf ≠ [] ∧
    statSizeOf (createModulesTree (modulesForAsset exZ exZAsset)) = 0 ∧
    (141 : Nat) ≠ 0 := by
  refine ⟨?_, rfl, ?_, ?_, by decide⟩
  · show viewerRecords (exZ.setAssets (filterAssets [] exZ.assets)) = _
    exact exZ_viewer
  · rw [exZ_modules, exZ_tree]
    simp [CNode.childrenOf]
  · rw [exZ_modules, exZ_tree]
    rfl

theorem c2_stat_size_witness :
    ([(⟨"bundle.js", true, 141, none, none, [.mk "a.js" 0 0 0 none]⟩ : ChartRecord)]).map
        ChartRecord.statSize
      = exZ.assets.map (fun a =>
          if statSizeOf (createModulesTree (modulesForAsset exZ a)) = 0 then a.size
          else statSizeOf (createModulesTree (modulesForAsset exZ a))) :=
  c2_stat_size exZ _ exZ_viewer (by decide)

/-! ## The live-update channel -/

/-- C9 (amended): on recompute, a `null` result — a thrown analysis — is
discarded: the held state is unchanged and nothing is sent; any successful
result, INCLUDING an empty chart-data array, replaces the held state, and
every observer whose connection is in the OPEN state is sent exactly one
`{event: "chartDataUpdated", data}` message. -/
theorem c9_update_broadcast (pats : List ExcludePattern) (st : ChannelState)
    (s : RawStats) :
    (getChartDataOpt pats s = none → updateChartData pats st s = (st, [])) ∧
    (∀ d, getChartDataOpt pats s = some d →
        (updateChartData pats st s).1.chartData = some d ∧
        (updateChartData pats st s).1.clients = st.clients ∧
        (updateChartData pats st s).2
          = (st.clients.filter (fun c => c.isOpen)).map
              (fun c => (c.id, ⟨"chartDataUpdated", d⟩))) := by
  constructor
  · intro hn
    unfold updateChartData
    rw [hn]
  · intro d hd
    unfold updateChartData
    rw [hd]
    exact ⟨rfl, rfl, rfl⟩

def exPrevRec : ChartRecord := ⟨"old.js", true, 1, none, none, []⟩
def exChan : ChannelState := ⟨some [exPrevRec], [⟨7, true⟩]⟩
def exEmptyStats : RawStats := .mk [] [] [] [] []

/-- C9 counterexample: a recomputation whose chart data comes out as the
empty array `[]` — an empty, but truthy, result — is NOT discarded: the
held state (previously holding a record) is replaced by `[]` and the open
observer is sent one message carrying `[]`. -/
theorem c9_update_broadcast_counterexample :
    getChartDataOpt [] exEmptyStats = some [] ∧
    updateChartData [] exChan exEmptyStats
      = (⟨some [], [⟨7, true⟩]⟩, [(7, ⟨"chartDataUpdated", []⟩)]) ∧
    exChan.chartData = some [exPrevRec] ∧
    (some ([] : List ChartRecord)) ≠ some [exPrevRec] := by
  refine ⟨rfl, rfl, rfl, ?_⟩
  intro h
  simp at h

theorem c9_update_broadcast_witness :
    updateChartData [] exChan exC3 = (exChan, []) ∧
    ((updateChartData [] exChan exEmptyStats).1.chartData = some [] ∧
     (updateChartData [] exChan exEmptyStats).1.clients = exChan.clients ∧
     (updateChartData [] exChan exEmptyStats).2
       = (exChan.clients.filter (fun c => c.isOpen)).map
           (fun c => (c.id, ⟨"chartDataUpdated", []⟩))) :=
  ⟨(c9_update_broadcast [] exChan exC3).1 rfl,
   (c9_update_broadcast [] exChan exEmptyStats).2 [] rfl⟩
